import Mathlib

/-!
Verification development for the progbg benchmark-matrix engine.

The Python sources are shallowly embedded: Python dicts become association
lists with first-occurrence update semantics, Python strings that get split
and joined become lists of characters, fallible code returns `Except`.
-/

set_option autoImplicit false

deriving instance DecidableEq for Except

namespace Progbg

universe u

variable {V : Type u}

/-- A Python dict, modelled as an association list.  Python dicts keep
insertion order and hold each key at most once; `dinsert` updates the first
occurrence in place or appends, which agrees with Python assignment
`d[k] = v` on every dict (where keys are unique). -/
abbrev Dict (V : Type u) := List (String × V)

/-- Python `d[k]` / `d.get(k)`: value of the first entry with key `k`. -/
def dlookup : Dict V → String → Option V
  | [], _ => none
  | p :: rest, k => if p.1 = k then some p.2 else dlookup rest k

/-- Python `k in d`. -/
def dmem (d : Dict V) (k : String) : Bool :=
  (dlookup d k).isSome

/-- Python `d[k] = v`: update the entry for `k` in place, else append. -/
def dinsert : Dict V → String → V → Dict V
  | [], k, v => [(k, v)]
  | p :: rest, k, v => if p.1 = k then (k, v) :: rest else p :: dinsert rest k v

@[simp] theorem dlookup_nil (k : String) : dlookup ([] : Dict V) k = none := rfl

theorem dlookup_cons (p : String × V) (d : Dict V) (k : String) :
    dlookup (p :: d) k = if p.1 = k then some p.2 else dlookup d k := rfl

@[simp] theorem dlookup_dinsert_self (d : Dict V) (k : String) (v : V) :
    dlookup (dinsert d k v) k = some v := by
  induction d with
  | nil => simp [dinsert, dlookup]
  | cons p rest ih =>
    by_cases h : p.1 = k
    · simp [dinsert, dlookup, h]
    · simp [dinsert, dlookup, h, ih]

@[simp] theorem dlookup_dinsert_ne (d : Dict V) (k k' : String) (v : V) (h : k' ≠ k) :
    dlookup (dinsert d k v) k' = dlookup d k' := by
  induction d with
  | nil => simp [dinsert, dlookup, h.symm]
  | cons p rest ih =>
    by_cases hp : p.1 = k
    · simp [dinsert, dlookup, hp, h.symm]
    · by_cases hp' : p.1 = k'
      · simp [dinsert, dlookup, hp, hp', h]
      · simp [dinsert, dlookup, hp, hp', ih]

/-- Reserved names (`progbg/globals.py`, `_sb_rnames`). -/
def sbRnames : List String := ["_backend", "_execution_name", "_iter", "_workload"]

/-- `Variables` from `progbg/util.py`: constants plus an ordered list of
(varying name, value list) pairs. -/
structure Variables (V : Type u) where
  consts : Dict V
  var : List (String × List V)
  deriving Repr, DecidableEq

/-- `itertools.product(*ranges)`: all tuples, leftmost component varying
slowest, exactly as the nested loops of the Python iterator. -/
def product : List (List V) → List (List V)
  | [] => [[]]
  | l :: ls => l.flatMap (fun x => (product ls).map (fun p => x :: p))

/-- The body of the `for perm in itertools.product(...)` loop: start from a
copy of the constants and assign `run_vars[k] = perm[i]` for each varying
name in order. -/
def insertPoint : Dict V → List String → List V → Dict V
  | d, [], _ => d
  | d, _, [] => d
  | d, n :: ns, v :: vs => insertPoint (dinsert d n v) ns vs

/-- `Variables.produce_args` from `progbg/util.py`. -/
def Variables.produce_args (vs : Variables V) : List (Dict V) :=
  if vs.var.length = 0 then [vs.consts]
  else
    (product (vs.var.map Prod.snd)).map
      (fun perm => insertPoint vs.consts (vs.var.map Prod.fst) perm)

/-- `Variables.y_names` from `progbg/util.py`. -/
def Variables.y_names (vs : Variables V) : List String :=
  vs.var.map Prod.fst

theorem product_length (ls : List (List V)) :
    (product ls).length = (ls.map List.length).prod := by
  induction ls with
  | nil => rfl
  | cons l ls ih =>
    simp only [product, List.map_cons, List.prod_cons]
    induction l with
    | nil => simp
    | cons x xs ihx =>
      simp only [List.flatMap_cons, List.length_append, List.length_map, ihx, ih,
        List.length_cons]
      ring

theorem mem_product (ls : List (List V)) (p : List V) :
    p ∈ product ls ↔ List.Forall₂ (fun x l => x ∈ l) p ls := by
  induction ls generalizing p with
  | nil =>
    simp only [product, List.mem_singleton, List.forall₂_nil_right_iff]
  | cons l ls ih =>
    simp only [product, List.mem_flatMap, List.mem_map, List.forall₂_cons_right_iff]
    constructor
    · rintro ⟨x, hx, q, hq, rfl⟩
      exact ⟨x, q, hx, (ih q).1 hq, rfl⟩
    · rintro ⟨x, q, hx, hq, rfl⟩
      exact ⟨x, hx, q, (ih q).2 hq, rfl⟩

theorem flatMap_cons_map_nodup (P : List (List V)) (hP : P.Nodup) :
    ∀ l : List V, l.Nodup → (l.flatMap (fun x => P.map (fun p => x :: p))).Nodup := by
  intro l
  induction l with
  | nil => intro _; simp
  | cons x xs ihx =>
    intro hl
    have hx : x ∉ xs := (List.nodup_cons.1 hl).1
    have hxs : xs.Nodup := (List.nodup_cons.1 hl).2
    simp only [List.flatMap_cons]
    refine List.Nodup.append ?_ (ihx hxs) ?_
    · exact hP.map (fun a b hab => by simpa using hab)
    · intro q hq hq'
      obtain ⟨qa, hqa, rfl⟩ := List.mem_map.1 hq
      obtain ⟨y, hy, hq2⟩ := List.mem_flatMap.1 hq'
      obtain ⟨qb, hqb, hcons⟩ := List.mem_map.1 hq2
      injection hcons with h1 h2
      exact hx (h1 ▸ hy)

theorem product_nodup (ls : List (List V)) (h : ∀ l ∈ ls, l.Nodup) :
    (product ls).Nodup := by
  induction ls with
  | nil => simp [product]
  | cons l ls ih =>
    have hl : l.Nodup := h l (by simp)
    have hls : (product ls).Nodup := ih (fun x hx => h x (by simp [hx]))
    simpa only [product] using flatMap_cons_map_nodup (product ls) hls l hl

theorem dlookup_insertPoint_notmem (d : Dict V) (ns : List String) (vs : List V)
    (n : String) (h : n ∉ ns) :
    dlookup (insertPoint d ns vs) n = dlookup d n := by
  induction ns generalizing d vs with
  | nil => cases vs <;> rfl
  | cons n' ns ih =>
    cases vs with
    | nil => rfl
    | cons v vs =>
      have hne : n ≠ n' := fun hh => h (hh ▸ List.mem_cons_self n' ns)
      rw [insertPoint, ih (dinsert d n' v) vs (fun hh => h (List.mem_cons_of_mem n' hh)),
        dlookup_dinsert_ne d n' n v hne]

theorem dlookup_insertPoint_get (d : Dict V) (ns : List String) (vs : List V)
    (hnd : ns.Nodup) (hlen : vs.length = ns.length) (i : Nat) (hi : i < ns.length) :
    dlookup (insertPoint d ns vs) (ns.get ⟨i, hi⟩) = some (vs.get ⟨i, by omega⟩) := by
  induction ns generalizing d vs i with
  | nil => simp at hi
  | cons n ns ih =>
    cases vs with
    | nil => simp at hlen
    | cons v vs =>
      cases i with
      | zero =>
        have hn : n ∉ ns := (List.nodup_cons.1 hnd).1
        simp only [insertPoint, List.get]
        rw [dlookup_insertPoint_notmem (dinsert d n v) ns vs n hn, dlookup_dinsert_self]
      | succ j =>
        simp only [insertPoint, List.get]
        exact ih (dinsert d n v) vs (List.nodup_cons.1 hnd).2 (by simpa using hlen) j
          (by simpa using hi)

theorem insertPoint_injOn (d : Dict V) (ns : List String) (hnd : ns.Nodup)
    (vs1 vs2 : List V) (h1 : vs1.length = ns.length) (h2 : vs2.length = ns.length)
    (heq : insertPoint d ns vs1 = insertPoint d ns vs2) : vs1 = vs2 := by
  apply List.ext_get (h1.trans h2.symm)
  intro i hi1 hi2
  have e1 := dlookup_insertPoint_get d ns vs1 hnd h1 i (by omega)
  have e2 := dlookup_insertPoint_get d ns vs2 hnd h2 i (by omega)
  rw [heq, e2] at e1
  exact (Option.some.injEq _ _ ▸ e1).symm

/-- Claim C1: for every well-formed `Variables` (distinct varying names,
duplicate-free value lists), `produce_args` returns exactly the product of
the value-list sizes many argument maps, pairwise distinct, each the merge
of the constants with one point of the cartesian product, covering the full
product; with zero varying names it returns the one-element list holding
just the constants. -/
theorem produce_args_spec (vs : Variables V)
    (hnames : (vs.var.map Prod.fst).Nodup)
    (hvals : ∀ p ∈ vs.var, p.2.Nodup) :
    (vs.produce_args).length = (vs.var.map (fun p => p.2.length)).prod ∧
    (vs.produce_args).Nodup ∧
    (∀ d : Dict V, d ∈ vs.produce_args ↔
      ∃ perm : List V, List.Forall₂ (fun x l => x ∈ l) perm (vs.var.map Prod.snd) ∧
        d = insertPoint vs.consts (vs.var.map Prod.fst) perm) ∧
    (vs.var = [] → vs.produce_args = [vs.consts]) := by
  by_cases hv : vs.var = []
  · refine ⟨?_, ?_, ?_, fun _ => ?_⟩ <;>
      simp [Variables.produce_args, hv, insertPoint, List.forall₂_nil_right_iff]
  · have hlen : vs.var.length ≠ 0 := fun hh => hv (List.length_eq_zero.1 hh)
    have hpa : vs.produce_args =
        (product (vs.var.map Prod.snd)).map
          (fun perm => insertPoint vs.consts (vs.var.map Prod.fst) perm) := by
      rw [Variables.produce_args, if_neg hlen]
    refine ⟨?_, ?_, ?_, fun hh => absurd hh hv⟩
    · rw [hpa, List.length_map, product_length, List.map_map]
      rfl
    · rw [hpa]
      refine List.Nodup.map_on ?_ ?_
      · intro p1 hp1 p2 hp2 heq
        have l1 : p1.length = (vs.var.map Prod.fst).length := by
          rw [((mem_product _ _).1 hp1).length_eq]
          simp
        have l2 : p2.length = (vs.var.map Prod.fst).length := by
          rw [((mem_product _ _).1 hp2).length_eq]
          simp
        exact insertPoint_injOn vs.consts (vs.var.map Prod.fst) hnames p1 p2 l1 l2 heq
      · exact product_nodup _ (by
          intro l hl
          obtain ⟨p, hp, rfl⟩ := List.mem_map.1 hl
          exact hvals p hp)
    · intro d
      rw [hpa]
      simp only [List.mem_map]
      constructor
      · rintro ⟨perm, hperm, rfl⟩
        exact ⟨perm, (mem_product _ _).1 hperm, rfl⟩
      · rintro ⟨perm, hperm, rfl⟩
        exact ⟨perm, (mem_product _ _).2 hperm, rfl⟩

/-- Concrete `Variables` instance matching the example in the
`produce_args` docstring. -/
def vsEx : Variables Nat :=
  ⟨[("other", 1)], [("x", [0, 1, 2]), ("test", [0, 2, 4])]⟩

theorem produce_args_spec_witness :
    (((vsEx.var.map Prod.fst).Nodup) ∧ (∀ p ∈ vsEx.var, p.2.Nodup)) ∧
    ((vsEx.produce_args).length = (vsEx.var.map (fun p => p.2.length)).prod ∧
      (vsEx.produce_args).Nodup ∧
      (∀ d : Dict Nat, d ∈ vsEx.produce_args ↔
        ∃ perm : List Nat, List.Forall₂ (fun x l => x ∈ l) perm (vsEx.var.map Prod.snd) ∧
          d = insertPoint vsEx.consts (vsEx.var.map Prod.fst) perm) ∧
      (vsEx.var = [] → vsEx.produce_args = [vsEx.consts])) :=
  ⟨⟨by decide, by decide⟩, produce_args_spec vsEx (by decide) (by decide)⟩

/-- Python exception value carrying its message. -/
inductive PyExc where
  | exception (msg : String)
  deriving Repr, DecidableEq

/-- Python evaluates `var[0] in _sb_rnames` by comparing `var[0]` — the
whole `(name, values)` pair, not the name — against each string in
`_sb_rnames`; in Python a tuple never compares equal to a string, so this
test is `False` for every pair. -/
def tupleEqStr (_t : String × List V) (_s : String) : Bool :=
  false

/-- The `var[0] in _sb_rnames` test of `Variables.__init__`
(`progbg/util.py`), which inspects only the first element of `var`. -/
def tupleHeadMemRnames (var : List (String × List V)) : Bool :=
  match var with
  | [] => false
  | t :: _ => sbRnames.any (tupleEqStr t)

/-- `Variables.__init__` from `progbg/util.py`: validation then field
assignment.  All checks sit under `if len(var):` and therefore run only
when the varying list is non-empty. -/
def variablesInit (consts : Dict V) (var : List (String × List V)) :
    Except PyExc (Variables V) :=
  if var.length ≠ 0 then
    if sbRnames.any (fun i => dmem consts i) || tupleHeadMemRnames var then
      Except.error (.exception "Cannot use a reserved name for a variable")
    else if var.any (fun vals => dmem consts vals.1) then
      Except.error (.exception "Name defined as constant and varying")
    else
      Except.ok ⟨consts, var⟩
  else
    Except.ok ⟨consts, var⟩

/-- Claim C4 (code bug): constructing a `Variables` whose varying name is
the reserved `_iter` succeeds, and with an empty varying list even a
reserved constant name `_workload` succeeds, because the reserved-name
test compares the `(name, values)` tuple itself against the reserved
strings and every check is skipped when `var` is empty. -/
theorem variablesInit_reserved_accepted :
    variablesInit ([] : Dict Nat) [("_iter", [0])] =
      Except.ok ⟨[], [("_iter", [0])]⟩ ∧
    variablesInit ([("_workload", 7)] : Dict Nat) [] =
      Except.ok ⟨[("_workload", 7)], []⟩ ∧
    variablesInit ([("_workload", 7)] : Dict Nat) [("x", [0])] =
      Except.error (.exception "Cannot use a reserved name for a variable") :=
  ⟨rfl, rfl, rfl⟩

/-- `_get_args` from `progbg/core.py`: walk the names declared in the
wrapped start signature and keep exactly the ones bound in the incoming
keyword map.  `registerbackend` installs `wrapped_start`, whose body calls
the original `start` with precisely this map. -/
def getArgs (specArgs : List String) (kwargs : Dict V) : Dict V :=
  specArgs.foldl
    (fun args k =>
      match dlookup kwargs k with
      | some v => dinsert args k v
      | none => args)
    []

theorem getArgs_foldl_lookup (kwargs : Dict V) (k : String) (specArgs : List String) :
    ∀ init : Dict V,
      dlookup (specArgs.foldl
        (fun args n =>
          match dlookup kwargs n with
          | some v => dinsert args n v
          | none => args) init) k =
      if specArgs.contains k = true ∧ (dlookup kwargs k).isSome = true then dlookup kwargs k
      else dlookup init k := by
  induction specArgs with
  | nil => intro init; simp
  | cons s rest ih =>
    intro init
    simp only [List.foldl_cons]
    rw [ih]
    by_cases hs : s = k
    · subst hs
      cases hl : dlookup kwargs s with
      | none => simp [hl]
      | some v =>
        by_cases hrest : rest.contains s = true
        · simp [hl, hrest]
        · simp [hl, hrest, List.contains_cons]
    · cases hl : dlookup kwargs s with
      | none => simp [hl, List.contains_cons, Ne.symm hs]
      | some v =>
        have hdd := dlookup_dinsert_ne init s k v (fun hh => hs hh.symm)
        simp [hl, hdd, List.contains_cons, Ne.symm hs]

/-- Claim C8: the wrapped backend `start` forwards exactly the keys
declared in the backend signature that appear in the merged keyword map;
every unknown key is dropped, and the selection is total (no error). -/
theorem getArgs_spec (specArgs : List String) (kwargs : Dict V) (k : String) :
    dlookup (getArgs specArgs kwargs) k =
      if specArgs.contains k = true then dlookup kwargs k else none := by
  rw [getArgs, getArgs_foldl_lookup]
  by_cases hc : specArgs.contains k = true
  · cases hl : dlookup kwargs k with
    | some v => simp [hl, hc]
    | none => simp [hl, hc]
  · have hm : ¬ k ∈ specArgs := by simpa using hc
    simp [hm]

/-- Instrumented trace of `compose_backends(...).start`
(`progbg/core.py`): `for backend in backends: backend.start(**kwargs)`,
logging each member call in order. -/
def composedStartTrace {B E : Type u} (backends : List B) (emit : B → E) : List E :=
  backends.foldl (fun log b => log ++ [emit b]) []

/-- Instrumented trace of `compose_backends(...).uninit`
(`progbg/core.py`): `for backend in reversed(backends): backend.uninit()`. -/
def composedUninitTrace {B E : Type u} (backends : List B) (emit : B → E) : List E :=
  backends.reverse.foldl (fun log b => log ++ [emit b]) []

theorem foldl_append_singleton {B E : Type u} (emit : B → E) (l : List B) :
    ∀ init : List E, l.foldl (fun log b => log ++ [emit b]) init = init ++ l.map emit := by
  induction l with
  | nil => intro init; simp
  | cons b rest ih => intro init; simp [ih]

/-- Claim C6: a composed backend starts its members in declaration order
and stops them in exactly the reverse order; in particular for the
composition of `[A, B]`, start order is A,B and stop order is B,A. -/
theorem compose_backends_order {B E : Type u} (emit : B → E) (bs : List B) (A B2 : B) :
    composedStartTrace bs emit = bs.map emit ∧
    composedUninitTrace bs emit = (bs.map emit).reverse ∧
    composedStartTrace [A, B2] emit = [emit A, emit B2] ∧
    composedUninitTrace [A, B2] emit = [emit B2, emit A] := by
  refine ⟨?_, ?_, rfl, rfl⟩
  · rw [composedStartTrace, foldl_append_singleton]
    simp
  · rw [composedUninitTrace, foldl_append_singleton]
    simp

/-- `_is_good` from `progbg/graphing/_util.py`: a record passes the
restriction when every restriction key that is present in the record maps
to the same (string) value.  Flat-file records come from `retrieve_obj`,
so every stored value is already a string. -/
def is_good (benchmark : Dict String) (restriction : Dict String) : Bool :=
  restriction.all (fun kv =>
    match dlookup benchmark kv.1 with
    | none => true
    | some v => v == kv.2)

theorem is_good_iff (o r : Dict String) :
    is_good o r = true ↔ ∀ p ∈ r, ∀ w, dlookup o p.1 = some w → w = p.2 := by
  simp only [is_good, List.all_eq_true]
  constructor
  · intro h p hp w hw
    have hh := h p hp
    rw [hw] at hh
    simpa using hh
  · intro h p hp
    cases hl : dlookup o p.1 with
    | none => rfl
    | some w => simpa using h p hp w hl

/-- `_retrieve_data_files` from `progbg/graphing/_util.py`.  Directory
listing and `retrieve_obj` deserialization are I/O: the embedding takes
the successfully deserialized record list (files that fail to parse are
skipped by the `try`/`except`).  `error(...)` prints and calls
`sys.exit(-1)`, modelled as `Except.error`. -/
def retrieve_data_files (objs : List (Dict String)) (restriction : Dict String) :
    Except PyExc (List (Dict String)) :=
  let benchmarks := objs.filter (fun o => is_good o restriction)
  if benchmarks.length = 0 then
    Except.error (.exception "No output after restriction")
  else
    Except.ok benchmarks

/-- Claim C9 counterexample: when the restriction filters out every
record, `_retrieve_data_files` does not return the (empty) matching list —
it exits fatally via `error(...)`. -/
theorem retrieve_data_files_empty_fatal :
    retrieve_data_files [[("x", "1")]] [("x", "2")] =
      Except.error (.exception "No output after restriction") := rfl

/-- Claim C9 (amended): as long as at least one record passes the
restriction, `_retrieve_data_files` returns exactly the records for which
every restriction key present in the record matches by string equality;
restriction keys absent from a record do not exclude it. -/
theorem retrieve_data_files_spec (objs : List (Dict String)) (restriction : Dict String)
    (h : ∃ o ∈ objs, is_good o restriction = true) :
    retrieve_data_files objs restriction =
      Except.ok (objs.filter (fun o => is_good o restriction)) ∧
    (∀ o, o ∈ objs.filter (fun o => is_good o restriction) ↔
      o ∈ objs ∧ ∀ p ∈ restriction, ∀ w, dlookup o p.1 = some w → w = p.2) := by
  obtain ⟨o, ho, hgood⟩ := h
  have hmem : o ∈ objs.filter (fun o => is_good o restriction) :=
    List.mem_filter.2 ⟨ho, hgood⟩
  constructor
  · rw [retrieve_data_files]
    rw [if_neg (fun hh => by rw [List.length_eq_zero.1 hh] at hmem; exact absurd hmem (by simp))]
  · intro o'
    rw [List.mem_filter, is_good_iff]

theorem retrieve_data_files_spec_witness :
    (∃ o ∈ [[("x", "1"), ("k", "a")], [("x", "2")], [("y", "3")]],
      is_good o [("x", "1")] = true) ∧
    (retrieve_data_files [[("x", "1"), ("k", "a")], [("x", "2")], [("y", "3")]] [("x", "1")] =
      Except.ok ([[("x", "1"), ("k", "a")], [("x", "2")], [("y", "3")]].filter
        (fun o => is_good o [("x", "1")])) ∧
    (∀ o, o ∈ [[("x", "1"), ("k", "a")], [("x", "2")], [("y", "3")]].filter
        (fun o => is_good o [("x", "1")]) ↔
      o ∈ [[("x", "1"), ("k", "a")], [("x", "2")], [("y", "3")]] ∧
        ∀ p ∈ [("x", "1")], ∀ w, dlookup o p.1 = some w → w = p.2)) :=
  ⟨by decide, retrieve_data_files_spec _ _ (by decide)⟩

/-- Python `s.split(sep)` for a one-character separator, over the
character list of the string: `"".split(sep) == [""]`, and separators at
the ends produce empty tokens. -/
def splitOnC (sep : Char) : List Char → List (List Char)
  | [] => [[]]
  | c :: rest =>
    if c = sep then [] :: splitOnC sep rest
    else
      match splitOnC sep rest with
      | [] => [[c]]
      | t :: ts => (c :: t) :: ts

/-- Python `sep.join(tokens)` over character lists. -/
def joinSep (sep : List Char) : List (List Char) → List Char
  | [] => []
  | [t] => t
  | t :: t' :: ts => t ++ sep ++ joinSep sep (t' :: ts)

theorem splitOnC_ne_nil (sep : Char) (cs : List Char) : splitOnC sep cs ≠ [] := by
  induction cs with
  | nil => simp [splitOnC]
  | cons c rest ih =>
    by_cases h : c = sep
    · simp [splitOnC, h]
    · rw [splitOnC, if_neg h]
      cases hh : splitOnC sep rest <;> simp

theorem splitOnC_cons_sep (sep : Char) (rest : List Char) :
    splitOnC sep (sep :: rest) = [] :: splitOnC sep rest := by
  simp [splitOnC]

theorem splitOnC_append (sep : Char) (t r : List Char) (ht : ∀ c ∈ t, c ≠ sep)
    (s : List Char) (ss : List (List Char)) (h : splitOnC sep r = s :: ss) :
    splitOnC sep (t ++ r) = (t ++ s) :: ss := by
  induction t with
  | nil => simpa using h
  | cons c t ih =>
    have hc : c ≠ sep := ht c (List.mem_cons_self c t)
    have ihh := ih (fun x hx => ht x (List.mem_cons_of_mem c hx))
    rw [List.cons_append, splitOnC, if_neg hc, ihh]
    rfl

theorem splitOn_joinSep (sep : Char) (toks : List (List Char)) (hne : toks ≠ [])
    (h : ∀ t ∈ toks, ∀ c ∈ t, c ≠ sep) :
    splitOnC sep (joinSep [sep] toks) = toks := by
  induction toks with
  | nil => exact absurd rfl hne
  | cons t ts ih =>
    cases ts with
    | nil =>
      have := splitOnC_append sep t [] (h t (List.mem_cons_self t [])) [] []
        (by simp [splitOnC])
      simpa [joinSep] using this
    | cons t' ts' =>
      have ihh : splitOnC sep (joinSep [sep] (t' :: ts')) = t' :: ts' :=
        ih (by simp) (fun x hx => h x (List.mem_cons_of_mem t hx))
      have hmid : splitOnC sep (sep :: joinSep [sep] (t' :: ts')) =
          [] :: (t' :: ts') := by
        rw [splitOnC_cons_sep, ihh]
      have happ := splitOnC_append sep t (sep :: joinSep [sep] (t' :: ts'))
        (h t (List.mem_cons_self t _)) [] (t' :: ts') hmid
      simpa [joinSep, List.append_assoc] using happ

theorem joinSep_cons_flatMap (sep : Char) :
    ∀ (t : List Char) (ts : List (List Char)),
      joinSep [sep] (t :: ts) = t ++ ts.flatMap (fun u => sep :: u) := by
  intro t ts
  induction ts generalizing t with
  | nil => simp [joinSep]
  | cons t' ts' ih =>
    rw [joinSep, ih t']
    simp [List.append_assoc]

/-- `chr(48 + d)`: the decimal digit character. -/
def digitChar (d : Nat) : Char := Char.ofNat (48 + d)

/-- Decimal rendering of a natural number (`str(n)` in Python), written
with explicit fuel so that evaluation is structural; the fuel `n` always
suffices. -/
def natToCharsAux : Nat → Nat → List Char
  | 0, n => [digitChar (n % 10)]
  | fuel + 1, n =>
    if n < 10 then [digitChar n]
    else natToCharsAux fuel (n / 10) ++ [digitChar (n % 10)]

def natToChars (n : Nat) : List Char := natToCharsAux n n

/-- Decimal value of a digit string (`int(s)` on an all-digit string). -/
def charsVal (cs : List Char) : Nat :=
  cs.foldl (fun a c => a * 10 + (c.toNat - 48)) 0

theorem digitChar_toNat (d : Nat) (h : d < 10) : (digitChar d).toNat = 48 + d := by
  interval_cases d <;> decide

theorem digitChar_ne_underscore (d : Nat) (h : d < 10) : digitChar d ≠ '_' := by
  interval_cases d <;> decide

theorem natToCharsAux_foldl (fuel : Nat) :
    ∀ n : Nat, n ≤ fuel → ∀ a : Nat,
      (natToCharsAux fuel n).foldl (fun a c => a * 10 + (c.toNat - 48)) a =
        a * 10 ^ (natToCharsAux fuel n).length + n := by
  induction fuel with
  | zero =>
    intro n hn a
    have hn0 : n = 0 := by omega
    simp [natToCharsAux, hn0, digitChar_toNat 0 (by omega)]
  | succ fuel ih =>
    intro n hn a
    by_cases h : n < 10
    · simp [natToCharsAux, h, digitChar_toNat n h]
    · have hdiv : n / 10 ≤ fuel := by
        have hlt : n / 10 < n := Nat.div_lt_self (by omega) (by omega)
        omega
      rw [natToCharsAux, if_neg h, List.foldl_append, ih (n / 10) hdiv a]
      have hmod : n % 10 < 10 := Nat.mod_lt n (by omega)
      simp [digitChar_toNat (n % 10) hmod, List.length_append, pow_succ]
      have hdm := Nat.div_add_mod n 10
      rw [Nat.add_mul, Nat.mul_assoc, Nat.add_assoc, Nat.mul_comm (n / 10) 10]
      omega

theorem charsVal_natToChars (n : Nat) : charsVal (natToChars n) = n := by
  have := natToCharsAux_foldl n n (le_refl n) 0
  simpa [charsVal, natToChars] using this

theorem natToCharsAux_no_underscore (fuel : Nat) :
    ∀ n : Nat, ∀ c ∈ natToCharsAux fuel n, c ≠ '_' := by
  induction fuel with
  | zero =>
    intro n c hc
    simp [natToCharsAux] at hc
    exact hc ▸ digitChar_ne_underscore (n % 10) (Nat.mod_lt n (by omega))
  | succ fuel ih =>
    intro n c hc
    by_cases h : n < 10
    · rw [natToCharsAux, if_pos h] at hc
      simp at hc
      exact hc ▸ digitChar_ne_underscore n h
    · rw [natToCharsAux, if_neg h] at hc
      rcases List.mem_append.1 hc with hc | hc
      · exact ih (n / 10) c hc
      · simp at hc
        exact hc ▸ digitChar_ne_underscore (n % 10) (Nat.mod_lt n (by omega))

theorem natToChars_no_underscore (n : Nat) : ∀ c ∈ natToChars n, c ≠ '_' :=
  natToCharsAux_no_underscore n n

/-- The body of `Execution.out_file` (`progbg/core.py`) once the backend
name attribute has been read: start from `self.bench.__class__.__name__`,
append `_b_` plus the backend object name, then one `_`-prefixed value per
backend varying name (looked up in the backend argument map, in
`y_names()` order), then the same for the benchmark varying names, then
`_` plus the iteration.  A missing key would raise `KeyError` in Python;
the embedding totalizes the lookup with `getD` and the theorems assume the
keys are present, as they are for maps built by `produce_args`. -/
def out_file_chars (benchClass : List Char) (backName : List Char)
    (backYNames : List String) (backendArgs : Dict (List Char))
    (benchYNames : List String) (benchArgs : Dict (List Char)) (iter : Nat) :
    List Char :=
  benchClass ++ ('_' :: 'b' :: '_' :: backName)
    ++ (backYNames.flatMap (fun n => '_' :: ((dlookup backendArgs n).getD [])))
    ++ (benchYNames.flatMap (fun n => '_' :: ((dlookup benchArgs n).getD [])))
    ++ ('_' :: natToChars iter)

theorem out_file_chars_tokens (benchClass backName : List Char)
    (backYNames : List String) (backendArgs : Dict (List Char))
    (benchYNames : List String) (benchArgs : Dict (List Char)) (iter : Nat) :
    out_file_chars benchClass backName backYNames backendArgs benchYNames benchArgs iter =
      joinSep ['_']
        ([benchClass, ['b'], backName]
          ++ backYNames.map (fun n => (dlookup backendArgs n).getD [])
          ++ benchYNames.map (fun n => (dlookup benchArgs n).getD [])
          ++ [natToChars iter]) := by
  rw [out_file_chars]
  rw [show ([benchClass, ['b'], backName]
        ++ backYNames.map (fun n => (dlookup backendArgs n).getD [])
        ++ benchYNames.map (fun n => (dlookup benchArgs n).getD [])
        ++ [natToChars iter]) =
      benchClass :: (([['b'], backName]
        ++ backYNames.map (fun n => (dlookup backendArgs n).getD [])
        ++ benchYNames.map (fun n => (dlookup benchArgs n).getD [])
        ++ [natToChars iter])) by simp]
  rw [joinSep_cons_flatMap]
  simp [List.flatMap_append, List.flatMap_cons, List.append_assoc, List.flatMap_map,
    Function.comp]

/-- Error raised by the identity decoder when the token count is wrong. -/
inductive DecodeErr where
  | malformedIdentity
  deriving Repr, DecidableEq

/-- A decoded run identity: run name token, optional composed-backend
path, backend varying values, benchmark varying values, iteration. -/
structure Identity where
  name : List Char
  backendPath : Option (List Char)
  backVals : List (List Char)
  benchVals : List (List Char)
  iteration : Nat
  deriving Repr, DecidableEq

/-- Expected token count for an identity with `k` backend varying names
and `m` benchmark varying names: name token, the sentinel `b` and the path
when a backend is attached, the varying values, the iteration. -/
def expectedTokens (hasBackend : Bool) (k m : Nat) : Nat :=
  1 + (if hasBackend then 2 else 0) + k + m + 1

/-- Modelled from the spec: the decoder `Execution.reverse_file_out` is
called by both parsers (`progbg/parsers.py`) but its definition is absent
from the sources.  Spec section 4.3: split on `_`, use the literal `b`
token as the backend sentinel, consume exactly as many positional tokens
as the backend and benchmark varying-name lists report, then the trailing
iteration integer; fail with `MalformedIdentityError` exactly when the
token count differs from the expected count. -/
def decode_identity (hasBackend : Bool) (k m : Nat) (s : List Char) :
    Except DecodeErr Identity :=
  if (splitOnC '_' s).length = expectedTokens hasBackend k m then
    Except.ok
      { name := (splitOnC '_' s).headD []
        backendPath :=
          if hasBackend then some (((splitOnC '_' s).drop 2).headD []) else none
        backVals := ((splitOnC '_' s).drop (if hasBackend then 3 else 1)).take k
        benchVals :=
          (((splitOnC '_' s).drop (if hasBackend then 3 else 1)).drop k).take m
        iteration := charsVal ((splitOnC '_' s).getLastD []) }
  else
    Except.error DecodeErr.malformedIdentity

theorem getLastD_append_singleton (l : List (List Char)) (a d : List Char) :
    (l ++ [a]).getLastD d = a := by
  induction l with
  | nil => rfl
  | cons x xs ih => simpa [List.getLastD] using ih a d

/-- Claim C2: encoding a run identity with `Execution.out_file` and
decoding the resulting string returns the original tuple, provided the
name, backend path and rendered values are `_`-free as the naming scheme
requires; and the decoder fails with `MalformedIdentityError` exactly when
the token count of the input differs from the count determined by the
varying-name lists.  (The decoder itself is modelled from the spec, since
`reverse_file_out` is missing from the sources.) -/
theorem decode_encode_roundtrip (benchClass backName : List Char)
    (backYNames : List String) (backendArgs : Dict (List Char))
    (benchYNames : List String) (benchArgs : Dict (List Char)) (iter : Nat)
    (hbc : ∀ c ∈ benchClass, c ≠ '_') (hbn : ∀ c ∈ backName, c ≠ '_')
    (hback : ∀ n ∈ backYNames,
      dmem backendArgs n = true ∧ ∀ c ∈ (dlookup backendArgs n).getD [], c ≠ '_')
    (hbench : ∀ n ∈ benchYNames,
      dmem benchArgs n = true ∧ ∀ c ∈ (dlookup benchArgs n).getD [], c ≠ '_') :
    decode_identity true backYNames.length benchYNames.length
        (out_file_chars benchClass backName backYNames backendArgs benchYNames
          benchArgs iter) =
      Except.ok
        { name := benchClass
          backendPath := some backName
          backVals := backYNames.map (fun n => (dlookup backendArgs n).getD [])
          benchVals := benchYNames.map (fun n => (dlookup benchArgs n).getD [])
          iteration := iter } ∧
    (∀ (hb : Bool) (k m : Nat) (s : List Char),
      decode_identity hb k m s = Except.error DecodeErr.malformedIdentity ↔
        (splitOnC '_' s).length ≠ expectedTokens hb k m) := by
  constructor
  · set BVals := backYNames.map (fun n => (dlookup backendArgs n).getD []) with hB
    set WVals := benchYNames.map (fun n => (dlookup benchArgs n).getD []) with hW
    have htoks : splitOnC '_'
        (out_file_chars benchClass backName backYNames backendArgs benchYNames
          benchArgs iter) =
        [benchClass, ['b'], backName] ++ BVals ++ WVals ++ [natToChars iter] := by
      rw [out_file_chars_tokens]
      apply splitOn_joinSep
      · simp
      · intro t ht
        simp only [List.mem_append, List.mem_cons, List.not_mem_nil, or_false,
          List.mem_singleton] at ht
        rcases ht with (((rfl | rfl | rfl) | hB1) | hW1) | rfl
        · exact hbc
        · intro c hc
          simp only [List.mem_singleton] at hc
          subst hc
          decide
        · exact hbn
        · obtain ⟨n, hn, rfl⟩ := List.mem_map.1 hB1
          exact (hback n hn).2
        · obtain ⟨n, hn, rfl⟩ := List.mem_map.1 hW1
          exact (hbench n hn).2
        · exact natToChars_no_underscore iter
    have hBlen : BVals.length = backYNames.length := by
      rw [hB, List.length_map]
    have hWlen : WVals.length = benchYNames.length := by
      rw [hW, List.length_map]
    have hlen : ([benchClass, ['b'], backName] ++ BVals ++ WVals
        ++ [natToChars iter]).length =
        expectedTokens true backYNames.length benchYNames.length := by
      simp only [List.length_append, List.length_cons, List.length_singleton,
        expectedTokens, hBlen, hWlen]
      simp
    have hcons : ([benchClass, ['b'], backName] ++ BVals ++ WVals
        ++ [natToChars iter]) =
        benchClass :: ['b'] :: backName :: (BVals ++ (WVals ++ [natToChars iter])) := by
      simp [List.append_assoc]
    have hlast : ([benchClass, ['b'], backName] ++ BVals ++ WVals
        ++ [natToChars iter]).getLastD [] = natToChars iter :=
      getLastD_append_singleton _ _ _
    rw [decode_identity, htoks, if_pos hlen]
    have hdrop3 : (benchClass :: ['b'] :: backName ::
        (BVals ++ (WVals ++ [natToChars iter]))).drop 3 =
        BVals ++ (WVals ++ [natToChars iter]) := rfl
    congr 1
    simp only [Identity.mk.injEq]
    refine ⟨?_, ?_, ?_, ?_, ?_⟩
    · rw [hcons]
      rfl
    · rw [hcons]
      simp
    · rw [hcons]
      simp only [if_true, hdrop3]
      rw [← hBlen, List.take_left]
    · rw [hcons]
      simp only [if_true, hdrop3]
      rw [← hBlen, List.drop_left, ← hWlen, List.take_left]
    · rw [hlast, charsVal_natToChars]
  · intro hb k m s
    rw [decode_identity]
    by_cases h : (splitOnC '_' s).length = expectedTokens hb k m
    · rw [if_pos h]
      simp [h]
    · rw [if_neg h]
      simp [h]

theorem decode_encode_roundtrip_witness :
    ((∀ c ∈ ("Wrk".data), c ≠ '_') ∧ (∀ c ∈ ("Tomcat-FFS".data), c ≠ '_') ∧
      (∀ n ∈ ["pass"], dmem [("pass", ['2'])] n = true ∧
        ∀ c ∈ (dlookup [("pass", ['2'])] n).getD [], c ≠ '_') ∧
      (∀ n ∈ ["x"], dmem [("x", ['3'])] n = true ∧
        ∀ c ∈ (dlookup [("x", ['3'])] n).getD [], c ≠ '_')) ∧
    (decode_identity true (["pass"] : List String).length (["x"] : List String).length
        (out_file_chars ("Wrk".data) ("Tomcat-FFS".data) ["pass"] [("pass", ['2'])]
          ["x"] [("x", ['3'])] 4) =
      Except.ok
        { name := "Wrk".data
          backendPath := some ("Tomcat-FFS".data)
          backVals := ["pass"].map (fun n => (dlookup [("pass", ['2'])] n).getD [])
          benchVals := ["x"].map (fun n => (dlookup [("x", ['3'])] n).getD [])
          iteration := 4 } ∧
      (∀ (hb : Bool) (k m : Nat) (s : List Char),
        decode_identity hb k m s = Except.error DecodeErr.malformedIdentity ↔
          (splitOnC '_' s).length ≠ expectedTokens hb k m)) :=
  ⟨⟨by decide, by decide, by decide, by decide⟩,
    decode_encode_roundtrip ("Wrk".data) ("Tomcat-FFS".data) ["pass"] [("pass", ['2'])]
      ["x"] [("x", ['3'])] 4 (by decide) (by decide) (by decide) (by decide)⟩

/-- `Execution.out_file` including the `back_obj.name` attribute access.
When the execution has no backends, `Execution.__init__` substitutes
`NullBackend()`, which defines no `name` attribute, so the access raises
`AttributeError`. -/
def out_file (benchClass : List Char) (backName : Option (List Char))
    (backYNames : List String) (backendArgs : Dict (List Char))
    (benchYNames : List String) (benchArgs : Dict (List Char)) (iter : Nat) :
    Except PyExc (List Char) :=
  match backName with
  | none => Except.error (.exception "AttributeError: object has no attribute name")
  | some bn =>
    Except.ok (out_file_chars benchClass bn backYNames backendArgs benchYNames
      benchArgs iter)

/-- Claim C3 (code bug): with no backend attached the encoder does not
omit the `_b_` segment and emit `latency-test_0_0` — it fails outright,
because `NullBackend` has no `name` attribute; and even with a backend the
first component is the benchmark class name and the `_b_` segment is
always present, contradicting the docstring
`output is (Execution_name)_b_...` of `out_file` itself. -/
theorem out_file_scenario_bug :
    out_file ("latency-test".data) none [] [] ["x"] [("x", ['0'])] 0 =
      Except.error (.exception "AttributeError: object has no attribute name") ∧
    out_file ("Wrk".data) (some ("Tomcat-FFS".data)) [] [] ["x"] [("x", ['1'])] 0 =
      Except.ok ("Wrk_b_Tomcat-FFS_1_0".data) := by
  constructor
  · rfl
  · decide

/-- Observable events of one `Execution.execute()` call: backend `start`,
one benchmark `run` per (argument set, iteration), backend `uninit`
(stop).  `write` is the storage-write event the claim expects; the
execute body never performs one. -/
inductive Ev (V : Type u) where
  | start (backArgs : Dict V)
  | run (benchArgs : Dict V) (iter : Nat)
  | stop
  | write (benchArgs : Dict V) (iter : Nat)
  deriving Repr, DecidableEq

def isStart {V : Type u} : Ev V → Bool
  | .start _ => true
  | _ => false

def isStop {V : Type u} : Ev V → Bool
  | .stop => true
  | _ => false

def isWrite {V : Type u} : Ev V → Bool
  | .write _ _ => true
  | _ => false

/-- `Execution._merged_args` (`progbg/core.py`): one entry per
backend-arg-set of the backend variables, each paired with the full
benchmark expansion. -/
def merged_args (benchVars backVars : Variables V) :
    List (Dict V × List (Dict V)) :=
  (backVars.produce_args).map (fun back => (back, benchVars.produce_args))

/-- Event trace of `Execution.execute` (`progbg/core.py`): for each
backend, for each arg-set of `_merged_args`, `start(**back_args)`, then
for each benchmark arg-set and each iteration one `run`, then
`uninit()`.  The body contains no parsing and no storage write. -/
def executeTrace (backendVars : List (Variables V)) (benchVars : Variables V)
    (iterations : Nat) : List (Ev V) :=
  backendVars.flatMap (fun bv =>
    (merged_args benchVars bv).flatMap (fun arg_set =>
      Ev.start arg_set.1 ::
        (arg_set.2.flatMap (fun ba =>
          (List.range iterations).map (fun i => Ev.run ba i)))
        ++ [Ev.stop]))

/-- The slice of the execute trace belonging to one backend arg-set. -/
def runSegment (benchVars : Variables V) (iterations : Nat)
    (backArgs : Dict V) : List (Ev V) :=
  Ev.start backArgs ::
    ((benchVars.produce_args).flatMap (fun ba =>
      (List.range iterations).map (fun i => Ev.run ba i)))
    ++ [Ev.stop]

theorem count_flatMap {A B : Type u} [DecidableEq B] (l : List A) (f : A → List B)
    (b : B) : (l.flatMap f).count b = (l.map (fun a => (f a).count b)).sum := by
  induction l with
  | nil => rfl
  | cons a rest ih => simp [List.flatMap_cons, List.count_append, ih]

theorem sum_indicator_nodup {A : Type u} [DecidableEq A] (l : List A)
    (hl : l.Nodup) (a : A) :
    (l.map (fun x => if x = a then 1 else 0)).sum = if a ∈ l then 1 else 0 := by
  induction l with
  | nil => simp
  | cons x xs ih =>
    have hx : x ∉ xs := (List.nodup_cons.1 hl).1
    have ihh := ih (List.nodup_cons.1 hl).2
    by_cases hxa : x = a
    · subst hxa
      simp [ihh, hx]
    · simp [hxa, ihh, Ne.symm hxa]

theorem count_run_map_range [DecidableEq V] (ba' ba : Dict V) (i iters : Nat) :
    (((List.range iters).map (fun j => Ev.run ba' j)).count (Ev.run ba i)) =
      if ba' = ba ∧ i < iters then 1 else 0 := by
  by_cases hba : ba' = ba
  · subst hba
    have hinj : Function.Injective (fun j => (Ev.run ba' j : Ev V)) := by
      intro a b hab
      simpa using hab
    rw [List.count_map_of_injective _ _ hinj]
    by_cases hi : i < iters
    · rw [if_pos ⟨rfl, hi⟩]
      exact List.count_eq_one_of_mem (List.nodup_range iters) (List.mem_range.2 hi)
    · rw [if_neg (fun hh => hi hh.2)]
      exact List.count_eq_zero_of_not_mem (fun hh => hi (List.mem_range.1 hh))
  · rw [if_neg (fun hh => hba hh.1)]
    refine List.count_eq_zero_of_not_mem (fun hh => ?_)
    obtain ⟨j, _, heq⟩ := List.mem_map.1 hh
    exact hba (by injection heq)

theorem count_run_segment [DecidableEq V] (benchVars : Variables V)
    (iterations : Nat) (backArgs : Dict V)
    (hnd : (benchVars.produce_args).Nodup) (ba : Dict V) (i : Nat) :
    (runSegment benchVars iterations backArgs).count (Ev.run ba i) =
      if ba ∈ benchVars.produce_args ∧ i < iterations then 1 else 0 := by
  rw [runSegment, List.count_append, List.count_cons, count_flatMap]
  have hstart : ((Ev.start backArgs : Ev V) == Ev.run ba i) = false := by
    simp
  have hstop : (([Ev.stop] : List (Ev V)).count (Ev.run ba i)) = 0 := by
    simp [List.count_singleton]
  rw [hstart, hstop]
  simp only [if_false, Nat.add_zero]
  have hmap : (benchVars.produce_args).map
      (fun x => (((List.range iterations).map (fun j => Ev.run x j)).count
        (Ev.run ba i))) =
      (benchVars.produce_args).map (fun x => if x = ba ∧ i < iterations then 1 else 0) := by
    apply List.map_congr_left
    intro x _
    exact count_run_map_range x ba i iterations
  rw [hmap]
  by_cases hi : i < iterations
  · have : ((benchVars.produce_args).map
        (fun x => if x = ba ∧ i < iterations then 1 else 0)) =
        (benchVars.produce_args).map (fun x => if x = ba then 1 else 0) := by
      apply List.map_congr_left
      intro x _
      by_cases hx : x = ba <;> simp [hx, hi]
    rw [this, sum_indicator_nodup _ hnd]
    by_cases hmem : ba ∈ benchVars.produce_args <;> simp [hmem, hi]
  · have : ((benchVars.produce_args).map
        (fun x => if x = ba ∧ i < iterations then 1 else 0)) =
        (benchVars.produce_args).map (fun _ => 0) := by
      apply List.map_congr_left
      intro x _
      simp [hi]
    rw [this]
    simp [hi]

/-- Claim C5 (amended): `execute()` is, per backend and per backend
arg-set, exactly one `start` first, then one `run` for every (benchmark
arg-set, iteration) pair, then exactly one `stop` — and the body writes
nothing to storage: parsing and persistence live in the separate
`Execution.parse` phase, so the trace holds no write event at all. -/
theorem executeTrace_spec [DecidableEq V] (backendVars : List (Variables V))
    (benchVars : Variables V) (iterations : Nat)
    (hnd : (benchVars.produce_args).Nodup) :
    executeTrace backendVars benchVars iterations =
      backendVars.flatMap (fun bv =>
        (bv.produce_args).flatMap (fun a => runSegment benchVars iterations a)) ∧
    (∀ backArgs : Dict V,
      (runSegment benchVars iterations backArgs).head? =
        some (Ev.start backArgs) ∧
      (runSegment benchVars iterations backArgs).getLast? = some Ev.stop ∧
      (runSegment benchVars iterations backArgs).countP (fun e => isStart e) = 1 ∧
      (runSegment benchVars iterations backArgs).countP (fun e => isStop e) = 1 ∧
      (∀ (ba : Dict V) (i : Nat),
        (runSegment benchVars iterations backArgs).count (Ev.run ba i) =
          if ba ∈ benchVars.produce_args ∧ i < iterations then 1 else 0)) ∧
    (executeTrace backendVars benchVars iterations).countP (fun e => isWrite e) = 0 := by
  refine ⟨?_, ?_, ?_⟩
  · rw [executeTrace]
    congr 1
    funext bv
    rw [merged_args, List.flatMap_map]
    rfl
  · intro backArgs
    have h0run : ((benchVars.produce_args).flatMap (fun ba =>
        (List.range iterations).map (fun i => Ev.run ba i))).countP
          (fun e => isStart e) = 0 := by
      rw [List.countP_eq_zero]
      intro e he
      obtain ⟨ba, _, he2⟩ := List.mem_flatMap.1 he
      obtain ⟨i, _, rfl⟩ := List.mem_map.1 he2
      simp [isStart]
    have h0stop : ((benchVars.produce_args).flatMap (fun ba =>
        (List.range iterations).map (fun i => Ev.run ba i))).countP
          (fun e => isStop e) = 0 := by
      rw [List.countP_eq_zero]
      intro e he
      obtain ⟨ba, _, he2⟩ := List.mem_flatMap.1 he
      obtain ⟨i, _, rfl⟩ := List.mem_map.1 he2
      simp [isStop]
    refine ⟨rfl, ?_, ?_, ?_, ?_⟩
    · rw [runSegment, List.getLast?_concat]
    · rw [runSegment, List.countP_append, List.countP_cons, h0run]
      simp [isStart]
    · rw [runSegment, List.countP_append, List.countP_cons, h0stop]
      simp [isStop]
    · exact count_run_segment benchVars iterations backArgs hnd
  · rw [List.countP_eq_zero]
    intro e he
    obtain ⟨bv, _, he1⟩ := List.mem_flatMap.1 he
    obtain ⟨arg_set, _, he2⟩ := List.mem_flatMap.1 he1
    rcases List.mem_append.1 he2 with he3 | he3
    · rcases List.mem_cons.1 he3 with rfl | he4
      · simp [isWrite]
      · obtain ⟨ba, _, he5⟩ := List.mem_flatMap.1 he4
        obtain ⟨i, _, rfl⟩ := List.mem_map.1 he5
        simp [isWrite]
    · simp only [List.mem_singleton] at he3
      subst he3
      simp [isWrite]

theorem executeTrace_spec_witness :
    ((Variables.mk ([("c", 1)] : Dict Nat) [("x", [0, 1])]).produce_args).Nodup ∧
    (executeTrace [Variables.mk ([] : Dict Nat) []]
        (Variables.mk ([("c", 1)] : Dict Nat) [("x", [0, 1])]) 2 =
      [Variables.mk ([] : Dict Nat) []].flatMap (fun bv =>
        (bv.produce_args).flatMap
          (fun a => runSegment (Variables.mk ([("c", 1)] : Dict Nat) [("x", [0, 1])]) 2 a)) ∧
    (∀ backArgs : Dict Nat,
      (runSegment (Variables.mk ([("c", 1)] : Dict Nat) [("x", [0, 1])]) 2 backArgs).head? =
        some (Ev.start backArgs) ∧
      (runSegment (Variables.mk ([("c", 1)] : Dict Nat) [("x", [0, 1])]) 2 backArgs).getLast? =
        some Ev.stop ∧
      (runSegment (Variables.mk ([("c", 1)] : Dict Nat) [("x", [0, 1])]) 2
        backArgs).countP (fun e => isStart e) = 1 ∧
      (runSegment (Variables.mk ([("c", 1)] : Dict Nat) [("x", [0, 1])]) 2
        backArgs).countP (fun e => isStop e) = 1 ∧
      (∀ (ba : Dict Nat) (i : Nat),
        (runSegment (Variables.mk ([("c", 1)] : Dict Nat) [("x", [0, 1])]) 2
          backArgs).count (Ev.run ba i) =
          if ba ∈ (Variables.mk ([("c", 1)] : Dict Nat) [("x", [0, 1])]).produce_args ∧
              i < 2 then 1 else 0)) ∧
    (executeTrace [Variables.mk ([] : Dict Nat) []]
        (Variables.mk ([("c", 1)] : Dict Nat) [("x", [0, 1])]) 2).countP
      (fun e => isWrite e) = 0) :=
  ⟨by decide, executeTrace_spec [Variables.mk [] []]
    (Variables.mk [("c", 1)] [("x", [0, 1])]) 2 (by decide)⟩

/-- Claim C5 counterexample: in a minimal execution (one backend arg-set,
one benchmark arg-set, one iteration) the execute trace is exactly
start, run, stop — one benchmark run happens but no record write occurs
during `execute()`, contradicting the claim that each run writes one
record to storage when a parser is bound. -/
theorem executeTrace_no_write_counterexample :
    executeTrace [Variables.mk ([] : Dict Nat) []] (Variables.mk [] []) 1 =
      [Ev.start [], Ev.run [] 0, Ev.stop] ∧
    (executeTrace [Variables.mk ([] : Dict Nat) []] (Variables.mk [] []) 1).countP
      (fun e => isWrite e) = 0 ∧
    (executeTrace [Variables.mk ([] : Dict Nat) []] (Variables.mk [] []) 1).count
      (Ev.run [] 0) = 1 := by
  refine ⟨rfl, rfl, by decide⟩

/-- `Backend.out_to_sql` (`progbg/util.py`): re-render a `-`-joined
backend path as a `_b_`-joined SQL-safe name. -/
def out_to_sqlS (s : String) : String :=
  String.mk (joinSep ['_', 'b', '_'] (splitOnC '-' s.data))

/-- One table of the relational sink, as `_add_sql_row` sees it: the
components of the table name (the result of `name_full.split("__")`,
always 2 or 3 components for names generated by `Execution.tables`) and
the declared column list. -/
structure SqlTable where
  components : List String
  fields : List String
  deriving Repr, DecidableEq

/-- The matching test of the `_add_sql_row` loop: the record matches a
table when its `_execution_name` and `_workload` equal the first two name
components and, for three-component names, the SQL rendering of its
`_backend` equals the third.  Python raises `KeyError` when a reserved
key is missing from the record; the embedding compares against the
present value, so a missing key simply fails to match.  Fewer than two
components would raise `IndexError`; unreachable for generated names. -/
def tableMatches (t : SqlTable) (obj : Dict String) : Bool :=
  match t.components with
  | e :: w :: rest =>
    (dlookup obj "_execution_name" == some e) &&
    (dlookup obj "_workload" == some w) &&
    (if rest.length = 1 then
      out_to_sqlS ((dlookup obj "_backend").getD "") == rest.headD ""
    else true)
  | _ => false

/-- The column-population loop of `_add_sql_row`: a declared column takes
its value from the record when present, else from the backend argument
map when that map is truthy (non-empty) and has the key, else from the
benchmark argument map, else the empty string. -/
def populateVal (obj back_args bench_args : Dict String) (backTruthy : Bool)
    (f : String) : String :=
  match dlookup obj f with
  | some v => v
  | none =>
    match (if backTruthy then dlookup back_args f else none) with
    | some v => v
    | none =>
      match dlookup bench_args f with
      | some v => v
      | none => ""

/-- The loop of `Execution._add_sql_row` (`progbg/core.py`, body of the
`for name_full, fields in self.tables.items():` statement) as written:
walk the tables, insert one row into the first table whose name
components match the record triplet (rewriting the record `_backend` to
its SQL form for three-component names before populating), and raise an
exception when no table matches.  This loop is dead code: `tables` is a
plain method, so the `self.tables.items()` access that would feed it
raises before the loop can start (see `add_sql_row`). -/
def addSqlRowBody :
    List SqlTable → Dict String → Dict String → Dict String →
      Except PyExc (List String × List String)
  | [], _, _, _ =>
    Except.error (.exception "Object was not/could not be added to any table")
  | t :: rest, obj, bench_args, back_args =>
    if tableMatches t obj then
      Except.ok (t.components,
        t.fields.map (populateVal
          (if t.components.length = 3 then
            dinsert obj "_backend" (out_to_sqlS ((dlookup obj "_backend").getD ""))
          else obj)
          back_args bench_args (!back_args.isEmpty)))
    else addSqlRowBody rest obj bench_args back_args

/-- What the attribute expression `self.tables` denotes on an
`Execution`: the loop body assumes a mapping, but in the source `tables`
is declared `def tables(self)` with no `@property` and no instance
attribute ever shadows it, so the access yields the bound method
itself. -/
inductive TablesAttr where
  | mapping (ts : List SqlTable)
  | boundMethod
  deriving Repr, DecidableEq

/-- The value of `self.tables` per the source (`progbg/core.py:243`): a
plain method, hence the bound method object, not the table mapping its
body would return. -/
def executionTablesAttr : TablesAttr := TablesAttr.boundMethod

/-- `Execution._add_sql_row` (`progbg/core.py`) including the
`self.tables.items()` access at its loop header (core.py:291): on a
mapping the loop walks it, but a bound method has no `items` attribute,
so the access raises `AttributeError` before any matching or insertion
can happen. -/
def add_sql_row (tablesAttr : TablesAttr) (obj bench_args back_args : Dict String) :
    Except PyExc (List String × List String) :=
  match tablesAttr with
  | .boundMethod =>
    Except.error (.exception "AttributeError: method object has no attribute items")
  | .mapping ts => addSqlRowBody ts obj bench_args back_args

/-- Claim C7 (amended): `_add_sql_row` never writes a row — because
`Execution.tables` is a plain method, `self.tables.items()` raises
`AttributeError` on every call, before any matching; the loop body as
written, which is unreachable, would insert into the first table
matching the record triplet a row populating every declared column from
the record, else the backend argument map (when non-empty), else the
benchmark argument map, else the empty string, and would raise an
exception (not a logged non-fatal drop) when no table matches. -/
theorem add_sql_row_spec (tables : List SqlTable)
    (obj bench_args back_args : Dict String) :
    (∀ o ba bb : Dict String, add_sql_row executionTablesAttr o ba bb =
      Except.error (.exception "AttributeError: method object has no attribute items")) ∧
    (add_sql_row (TablesAttr.mapping tables) obj bench_args back_args =
      match tables.find? (fun t => tableMatches t obj) with
      | some t =>
        Except.ok (t.components,
          t.fields.map (populateVal
            (if t.components.length = 3 then
              dinsert obj "_backend" (out_to_sqlS ((dlookup obj "_backend").getD ""))
            else obj)
            back_args bench_args (!back_args.isEmpty)))
      | none =>
        Except.error (.exception "Object was not/could not be added to any table")) ∧
    (∀ (o ba bb : Dict String) (bt : Bool) (f : String),
      populateVal o ba bb bt f =
        if dmem o f = true then (dlookup o f).getD ""
        else if bt && dmem ba f then (dlookup ba f).getD ""
        else if dmem bb f = true then (dlookup bb f).getD ""
        else "") := by
  refine ⟨fun o ba bb => rfl, ?_, ?_⟩
  · show addSqlRowBody tables obj bench_args back_args = _
    induction tables with
    | nil => rfl
    | cons t rest ih =>
      by_cases ht : tableMatches t obj
      · have hf : List.find? (fun t => tableMatches t obj) (t :: rest) = some t := by
          simp only [List.find?]
          simp [ht]
        rw [addSqlRowBody, if_pos ht, hf]
      · have hf : List.find? (fun t => tableMatches t obj) (t :: rest) =
            List.find? (fun t => tableMatches t obj) rest := by
          simp only [List.find?]
          simp [ht]
        rw [addSqlRowBody, if_neg ht, ih, hf]
  · intro o ba bb bt f
    rw [populateVal]
    cases ho : dlookup o f with
    | some v => simp [dmem, ho]
    | none =>
      cases bt with
      | false =>
        cases hb : dlookup bb f with
        | some v => simp [dmem, ho, hb]
        | none => simp [dmem, ho, hb]
      | true =>
        cases ha : dlookup ba f with
        | some v => simp [dmem, ho, ha]
        | none =>
          cases hb : dlookup bb f with
          | some v => simp [dmem, ho, ha, hb]
          | none => simp [dmem, ho, ha, hb]

/-- Claim C7 counterexample: a record that the declared table
`exec/workload` would match is not inserted — `_add_sql_row` raises
`AttributeError` on every call because `self.tables` is the bound
method; and even the loop body as written raises its no-table exception
on a mismatching record instead of dropping it non-fatally. -/
theorem add_sql_row_counterexample :
    add_sql_row executionTablesAttr
        [("_execution_name", "e"), ("_workload", "w")] [] [] =
      Except.error (.exception "AttributeError: method object has no attribute items") ∧
    addSqlRowBody [⟨["e", "w"], ["a"]⟩]
        [("_execution_name", "x"), ("_workload", "w")] [] [] =
      Except.error (.exception "Object was not/could not be added to any table") :=
  ⟨rfl, rfl⟩

theorem dlookup_eq_none_iff (d : Dict V) (k : String) :
    dlookup d k = none ↔ ∀ p ∈ d, p.1 ≠ k := by
  induction d with
  | nil => simp
  | cons p rest ih =>
    by_cases hp : p.1 = k
    · simp [dlookup, hp]
    · simp [dlookup, hp, ih]

theorem dlookup_some_mem (d : Dict V) (k : String) (v : V)
    (h : dlookup d k = some v) : (k, v) ∈ d := by
  induction d with
  | nil => simp [dlookup] at h
  | cons p rest ih =>
    by_cases hp : p.1 = k
    · rw [dlookup, if_pos hp] at h
      have hpv : p = (k, v) := by
        cases p
        simp only [Option.some.injEq] at h
        simp_all
      exact hpv ▸ List.mem_cons_self p rest
    · rw [dlookup, if_neg hp] at h
      exact List.mem_cons_of_mem p (ih h)

/-- The state of a `Metrics` object (`progbg/util.py`): `_vars` maps each
key to the list of data points added for it, `_consts` maps keys to
constant values.  Values are real numbers, the idealization of the Python
floats that `np.mean`/`np.std` operate on. -/
structure MetricsState where
  vars : Dict (List ℝ)
  consts : Dict ℝ

/-- `Metrics.add_metric`: append the data point to the list at `key`,
creating the singleton list when the key is new. -/
def add_metric (m : MetricsState) (key : String) (val : ℝ) : MetricsState :=
  match dlookup m.vars key with
  | none => { m with vars := dinsert m.vars key [val] }
  | some l => { m with vars := dinsert m.vars key (l ++ [val]) }

/-- `Metrics.add_constant`. -/
def add_constant (m : MetricsState) (key : String) (val : ℝ) : MetricsState :=
  { m with consts := dinsert m.consts key val }

/-- `np.mean`: arithmetic mean. -/
noncomputable def npMean (l : List ℝ) : ℝ := l.sum / l.length

/-- `np.std`: population standard deviation, the square root of the mean
squared deviation. -/
noncomputable def npStd (l : List ℝ) : ℝ :=
  Real.sqrt ((l.map (fun x => (x - npMean l) ^ 2)).sum / l.length)

/-- `Metrics.get_stats` (`progbg/util.py`): for each `_vars` entry store
the mean at the key and the standard deviation at the key suffixed
`_std`, then write every constant over the result. -/
noncomputable def get_stats (m : MetricsState) : Dict ℝ :=
  m.consts.foldl (fun obj kv => dinsert obj kv.1 kv.2)
    (m.vars.foldl (fun obj kv =>
      dinsert (dinsert obj kv.1 (npMean kv.2)) (kv.1 ++ "_std") (npStd kv.2)) [])

theorem ne_append_std (k : String) : k ≠ k ++ "_std" := by
  intro h
  have hlen := congrArg String.length h
  rw [String.length_append] at hlen
  have h4 : ("_std" : String).length = 4 := rfl
  omega

theorem append_std_cancel {k1 k2 : String} (h : k1 ++ "_std" = k2 ++ "_std") :
    k1 = k2 := by
  have hd : k1.data ++ "_std".data = k2.data ++ "_std".data := by
    rw [← String.data_append, ← String.data_append, h]
  apply String.ext
  exact List.append_cancel_right hd

theorem lookup_constsFold_untouched (consts : Dict ℝ) (k : String)
    (h : ∀ p ∈ consts, p.1 ≠ k) :
    ∀ init : Dict ℝ,
      dlookup (consts.foldl (fun obj kv => dinsert obj kv.1 kv.2) init) k =
        dlookup init k := by
  induction consts with
  | nil => intro init; rfl
  | cons p rest ih =>
    intro init
    rw [List.foldl_cons,
      ih (fun q hq => h q (List.mem_cons_of_mem p hq)),
      dlookup_dinsert_ne _ _ _ _ (Ne.symm (h p (List.mem_cons_self p rest)))]

theorem lookup_constsFold_mem (consts : Dict ℝ) (k : String) (v : ℝ)
    (hnd : (consts.map Prod.fst).Nodup) (hv : dlookup consts k = some v) :
    ∀ init : Dict ℝ,
      dlookup (consts.foldl (fun obj kv => dinsert obj kv.1 kv.2) init) k =
        some v := by
  induction consts with
  | nil => simp [dlookup] at hv
  | cons p rest ih =>
    rw [List.map_cons, List.nodup_cons] at hnd
    intro init
    rw [List.foldl_cons]
    by_cases hp : p.1 = k
    · rw [dlookup, if_pos hp] at hv
      have hrest : ∀ q ∈ rest, q.1 ≠ k := by
        intro q hq hqk
        have hmem : q.1 ∈ rest.map Prod.fst := List.mem_map_of_mem Prod.fst hq
        rw [hqk, ← hp] at hmem
        exact hnd.1 hmem
      rw [lookup_constsFold_untouched rest k hrest, hp,
        dlookup_dinsert_self]
      simpa using hv
    · rw [dlookup, if_neg hp] at hv
      exact ih hnd.2 hv _

theorem lookup_varsFold_untouched (vars : Dict (List ℝ)) (k : String)
    (h : ∀ p ∈ vars, p.1 ≠ k ∧ p.1 ++ "_std" ≠ k) :
    ∀ init : Dict ℝ,
      dlookup (vars.foldl (fun obj kv =>
        dinsert (dinsert obj kv.1 (npMean kv.2)) (kv.1 ++ "_std") (npStd kv.2)) init) k =
        dlookup init k := by
  induction vars with
  | nil => intro init; rfl
  | cons p rest ih =>
    intro init
    rw [List.foldl_cons,
      ih (fun q hq => h q (List.mem_cons_of_mem p hq)),
      dlookup_dinsert_ne _ _ _ _ (Ne.symm (h p (List.mem_cons_self p rest)).2),
      dlookup_dinsert_ne _ _ _ _ (Ne.symm (h p (List.mem_cons_self p rest)).1)]

theorem lookup_varsFold_mean (vars : Dict (List ℝ)) (k : String) (l : List ℝ)
    (hnd : (vars.map Prod.fst).Nodup) (hl : dlookup vars k = some l)
    (hstd : ∀ p ∈ vars, p.1 ++ "_std" ≠ k) :
    ∀ init : Dict ℝ,
      dlookup (vars.foldl (fun obj kv =>
        dinsert (dinsert obj kv.1 (npMean kv.2)) (kv.1 ++ "_std") (npStd kv.2)) init) k =
        some (npMean l) := by
  induction vars with
  | nil => simp [dlookup] at hl
  | cons p rest ih =>
    rw [List.map_cons, List.nodup_cons] at hnd
    intro init
    rw [List.foldl_cons]
    by_cases hp : p.1 = k
    · rw [dlookup, if_pos hp] at hl
      have hrest : ∀ q ∈ rest, q.1 ≠ k ∧ q.1 ++ "_std" ≠ k := by
        intro q hq
        constructor
        · intro hqk
          have hmem : q.1 ∈ rest.map Prod.fst := List.mem_map_of_mem Prod.fst hq
          rw [hqk, ← hp] at hmem
          exact hnd.1 hmem
        · exact hstd q (List.mem_cons_of_mem p hq)
      have hne : k ≠ p.1 ++ "_std" := by
        rw [hp]
        exact ne_append_std k
      rw [lookup_varsFold_untouched rest k hrest,
        dlookup_dinsert_ne _ _ _ _ hne, hp, dlookup_dinsert_self]
      simp only [Option.some.injEq] at hl
      rw [hl]
    · rw [dlookup, if_neg hp] at hl
      exact ih hnd.2 hl (fun q hq => hstd q (List.mem_cons_of_mem p hq)) _

theorem lookup_varsFold_std (vars : Dict (List ℝ)) (k : String) (l : List ℝ)
    (hnd : (vars.map Prod.fst).Nodup) (hl : dlookup vars k = some l)
    (hnostd : ∀ p ∈ vars, ∀ q ∈ vars, p.1 ≠ q.1 ++ "_std") :
    ∀ init : Dict ℝ,
      dlookup (vars.foldl (fun obj kv =>
        dinsert (dinsert obj kv.1 (npMean kv.2)) (kv.1 ++ "_std") (npStd kv.2)) init)
        (k ++ "_std") = some (npStd l) := by
  induction vars with
  | nil => simp [dlookup] at hl
  | cons p rest ih =>
    rw [List.map_cons, List.nodup_cons] at hnd
    intro init
    have hkmem : (k, l) ∈ p :: rest := dlookup_some_mem _ _ _ hl
    rw [List.foldl_cons]
    by_cases hp : p.1 = k
    · rw [dlookup, if_pos hp] at hl
      have hrest : ∀ q ∈ rest, q.1 ≠ k ++ "_std" ∧ q.1 ++ "_std" ≠ k ++ "_std" := by
        intro q hq
        constructor
        · exact hnostd q (List.mem_cons_of_mem p hq) (k, l) hkmem
        · intro hqk
          have hq1 : q.1 = k := append_std_cancel hqk
          have hmem : q.1 ∈ rest.map Prod.fst := List.mem_map_of_mem Prod.fst hq
          rw [hq1, ← hp] at hmem
          exact hnd.1 hmem
      rw [lookup_varsFold_untouched rest (k ++ "_std") hrest, hp,
        dlookup_dinsert_self]
      simp only [Option.some.injEq] at hl
      rw [hl]
    · rw [dlookup, if_neg hp] at hl
      exact ih hnd.2 hl
        (fun a ha b hb => hnostd a (List.mem_cons_of_mem p ha) b
          (List.mem_cons_of_mem p hb)) _

/-- Claim C10: `get_stats` assigns each metric key the arithmetic mean of
the values added for it, assigns the key suffixed `_std` its standard
deviation, and assigns each constant key its constant value, constants
overriding computed entries of the same name; `add_metric` appends each
added value to the list for its key.  Well-formedness assumptions: the
`_vars` and `_consts` key lists are duplicate-free (true of Python dicts)
and no metric key is another metric key suffixed `_std`. -/
theorem get_stats_spec (m : MetricsState)
    (hvnd : (m.vars.map Prod.fst).Nodup)
    (hcnd : (m.consts.map Prod.fst).Nodup)
    (hnostd : ∀ p ∈ m.vars, ∀ q ∈ m.vars, p.1 ≠ q.1 ++ "_std") :
    (∀ (key : String) (val : ℝ),
      dlookup (add_metric m key val).vars key =
        some ((dlookup m.vars key).getD [] ++ [val])) ∧
    (∀ (k : String) (v : ℝ), dlookup m.consts k = some v →
      dlookup (get_stats m) k = some v) ∧
    (∀ (k : String) (l : List ℝ), dlookup m.vars k = some l →
      dlookup m.consts k = none →
      dlookup (get_stats m) k = some (npMean l)) ∧
    (∀ (k : String) (l : List ℝ), dlookup m.vars k = some l →
      dlookup m.consts (k ++ "_std") = none →
      dlookup (get_stats m) (k ++ "_std") = some (npStd l)) := by
  refine ⟨?_, ?_, ?_, ?_⟩
  · intro key val
    rw [add_metric]
    cases h : dlookup m.vars key with
    | none => simp [h]
    | some l => simp [h]
  · intro k v hv
    rw [get_stats]
    exact lookup_constsFold_mem m.consts k v hcnd hv _
  · intro k l hl hc
    rw [get_stats,
      lookup_constsFold_untouched m.consts k ((dlookup_eq_none_iff _ _).1 hc)]
    have hstd : ∀ p ∈ m.vars, p.1 ++ "_std" ≠ k := by
      intro p hp hpk
      exact hnostd (k, l) (dlookup_some_mem _ _ _ hl) p hp hpk.symm
    exact lookup_varsFold_mean m.vars k l hvnd hl hstd _
  · intro k l hl hc
    rw [get_stats,
      lookup_constsFold_untouched m.consts (k ++ "_std")
        ((dlookup_eq_none_iff _ _).1 hc)]
    exact lookup_varsFold_std m.vars k l hvnd hl hnostd _

theorem get_stats_spec_witness :
    (((MetricsState.mk [("a", [1, 3])] [("b", 5)]).vars.map Prod.fst).Nodup ∧
      ((MetricsState.mk [("a", [1, 3])] [("b", 5)]).consts.map Prod.fst).Nodup ∧
      (∀ p ∈ (MetricsState.mk [("a", [1, 3])] [("b", 5)]).vars,
        ∀ q ∈ (MetricsState.mk [("a", [1, 3])] [("b", 5)]).vars,
          p.1 ≠ q.1 ++ "_std")) ∧
    ((∀ (key : String) (val : ℝ),
      dlookup (add_metric (MetricsState.mk [("a", [1, 3])] [("b", 5)]) key val).vars key =
        some ((dlookup (MetricsState.mk [("a", [1, 3])] [("b", 5)]).vars key).getD []
          ++ [val])) ∧
    (∀ (k : String) (v : ℝ),
      dlookup (MetricsState.mk [("a", [1, 3])] [("b", 5)]).consts k = some v →
      dlookup (get_stats (MetricsState.mk [("a", [1, 3])] [("b", 5)])) k = some v) ∧
    (∀ (k : String) (l : List ℝ),
      dlookup (MetricsState.mk [("a", [1, 3])] [("b", 5)]).vars k = some l →
      dlookup (MetricsState.mk [("a", [1, 3])] [("b", 5)]).consts k = none →
      dlookup (get_stats (MetricsState.mk [("a", [1, 3])] [("b", 5)])) k =
        some (npMean l)) ∧
    (∀ (k : String) (l : List ℝ),
      dlookup (MetricsState.mk [("a", [1, 3])] [("b", 5)]).vars k = some l →
      dlookup (MetricsState.mk [("a", [1, 3])] [("b", 5)]).consts (k ++ "_std") = none →
      dlookup (get_stats (MetricsState.mk [("a", [1, 3])] [("b", 5)])) (k ++ "_std") =
        some (npStd l))) :=
  ⟨⟨by simp, by simp, by simp⟩,
    get_stats_spec (MetricsState.mk [("a", [1, 3])] [("b", 5)])
      (by simp) (by simp) (by simp)⟩

end Progbg
